import Mathlib

/-!
Shallow embedding of the felix fact store (src/felix.cpp).

Byte strings are modelled as lists of natural numbers (one entry per byte).
External library primitives (OpenSSL SHA-256 and EVP base-64, ICU NFC
normalization and UTF-8 validation, the shortest round-trip float formatter)
are modelled as components of a `Prims` record, per the library contracts
stated by the specification; everything else is translated from the source.
-/

abbrev Byte := Nat

/-- Bytes of a Lean string literal, used to transcribe C++ string literals. -/
def strBytes (s : String) : List Byte :=
  s.data.map (fun c => c.toNat)

/-- External primitive routines used by felix.cpp, modelled as parameters.
`sha256` models the OpenSSL SHA-256 digest; `nfc` models ICU NFC
normalization (`nfc_normalize_utf8`); `validUtf8` models the ICU round-trip
check in `require_utf8`; `floatCanonInt` models `canonicalize_float64` applied
to an integer-valued double from the structured path; `strtodCanon` models
`std::strtod` followed by `canonicalize_float64` on the raw path (`none` for a
parse failure or range error); `evpDecodeBlock` models `EVP_DecodeBlock`. -/
structure Prims where
  sha256 : List Byte → List Byte
  nfc : List Byte → List Byte
  validUtf8 : List Byte → Bool
  floatCanonInt : Int → List Byte
  strtodCanon : List Byte → Option (List Byte)
  evpDecodeBlock : List Byte → Option (List Byte)

/-- `std::isspace` in the default C locale (trim_copy uses it): space, tab,
line feed, vertical tab, form feed, carriage return. -/
def isCSpace (b : Byte) : Bool :=
  b == 32 || b == 9 || b == 10 || b == 11 || b == 12 || b == 13

/-- Length of the leading run of C-locale whitespace: the first while loop of
`trim_copy` (and the whitespace skip of `strtoll`). -/
def countLeadSpace : List Byte → Nat
  | [] => 0
  | b :: r => if isCSpace b then countLeadSpace r + 1 else 0

/-- `trim_copy`: index `b` past the leading whitespace run, index `e` back
over the trailing whitespace run, return the substring between them. -/
def trimCopy (s : List Byte) : List Byte :=
  let t := s.drop (countLeadSpace s)
  t.take (t.length - countLeadSpace t.reverse)

/-- The logical type enumeration of felix.cpp. -/
inductive LogicalType
  | null | bool | int | float | text | bytes | uuid | jsonReserved
deriving DecidableEq, Repr

/-- `TagMapVersion`. -/
inductive TagMapVersion
  | legacyV02 | felixV03
deriving DecidableEq, Repr

/-- `HashFormatVersion`. -/
inductive HashFormatVersion
  | legacyNoSep | felixV03Sep
deriving DecidableEq, Repr

/-- Abstract error kinds; each constructor corresponds to one family of
`std::runtime_error` messages thrown by felix.cpp. -/
inductive Err
  | badEncoding          -- "invalid UTF-8 in ..."
  | badBase64            -- "invalid base64 ..."
  | badUuid              -- "invalid uuid ..."
  | badBool              -- "bool must be true or false" / "bool value must be JSON boolean"
  | badInt               -- "invalid int" / "int cannot be empty" / "int value must be JSON integer"
  | badFloat             -- float errors including the NaN rejection
  | badTag               -- "unknown ... type tag"
  | unsupportedInLegacy  -- "type not supported by legacy tag map"
  | reservedType         -- "type json is reserved ..."
  | fieldTooLong         -- "field name exceeds 256 bytes"
  | fieldsPerCallExceeded -- "fields per ingest exceeds 256"
  | valueTooLarge        -- "text value exceeds 1 MiB" / "bytes value exceeds 4 MiB"
  | duplicate            -- SQLITE_CONSTRAINT on the facts primary key
  | parseError           -- "unknown type: ..." and other structural parse errors
deriving DecidableEq, Repr

/-- `type_tag_byte`: the two tag maps.  In the legacy map, Bytes and Uuid
fall to the default case and throw ("type not supported by legacy tag map"). -/
def typeTagByte (v : TagMapVersion) (t : LogicalType) : Except Err Byte :=
  match v with
  | .legacyV02 =>
    match t with
    | .text => .ok 1
    | .int => .ok 2
    | .float => .ok 3
    | .bool => .ok 4
    | .null => .ok 5
    | .jsonReserved => .ok 6
    | .bytes => .error .unsupportedInLegacy
    | .uuid => .error .unsupportedInLegacy
  | .felixV03 =>
    match t with
    | .null => .ok 0
    | .bool => .ok 1
    | .int => .ok 2
    | .float => .ok 3
    | .text => .ok 4
    | .bytes => .ok 5
    | .uuid => .ok 6
    | .jsonReserved => .ok 7

/-- The byte sequence hashed by `sha256_typed`: tag byte, then a 0x00
separator in the felix_v03_sep format only, then the canonical bytes. -/
def sha256Input (hfmt : HashFormatVersion) (tag : Byte) (canon : List Byte) : List Byte :=
  tag :: (if hfmt = .felixV03Sep then 0 :: canon else canon)

/-- `CanonValue`: logical type plus exactly one populated canonical payload
(`canon_text` for every type except bytes, `canon_blob` for bytes). -/
structure CanonValueM where
  logicalType : LogicalType
  canonText : List Byte
  canonBlob : List Byte
deriving DecidableEq, Repr

/-- Equality of Except results is decidable when both components are. -/
instance {e a : Type} [DecidableEq e] [DecidableEq a] : DecidableEq (Except e a) :=
  fun x y =>
    match x, y with
    | .error e1, .error e2 =>
      if h : e1 = e2 then .isTrue (by rw [h])
      else .isFalse (fun hc => h (Except.error.inj hc))
    | .ok a1, .ok a2 =>
      if h : a1 = a2 then .isTrue (by rw [h])
      else .isFalse (fun hc => h (Except.ok.inj hc))
    | .error _, .ok _ => .isFalse (fun hc => Except.noConfusion hc)
    | .ok _, .error _ => .isFalse (fun hc => Except.noConfusion hc)

/-- The three canonical bytes of the Null value. -/
def nullBytes : List Byte := strBytes "null"

/-- Decimal digit bytes. -/
def isDigitByte (b : Byte) : Bool := 48 ≤ b && b ≤ 57

/-- Numeric value of a digit-byte string (most significant first). -/
def digitsVal (ds : List Byte) : Nat :=
  ds.foldl (fun acc d => acc * 10 + (d - 48)) 0

def int64Max : Int := 9223372036854775807
def int64Min : Int := -9223372036854775808

/-- `std::to_string` on an int64: minimal decimal rendering with a leading
minus sign for negative values. -/
def intToDecBytes (v : Int) : List Byte := strBytes (toString v)

/-- `std::stoll(s, &idx, 10)`: skip leading C whitespace, optional single
sign, at least one decimal digit.  Returns the value and the index one past
the last digit; `none` models the invalid_argument (no digits) and
out_of_range (outside the signed 64-bit range) exceptions. -/
def stoll10 (s : List Byte) : Option (Int × Nat) :=
  let ws := countLeadSpace s
  let r1 := s.drop ws
  let sgn : Nat × Bool :=
    match r1 with
    | 43 :: _ => (1, false)
    | 45 :: _ => (1, true)
    | _ => (0, false)
  let r2 := r1.drop sgn.1
  let ds := r2.takeWhile isDigitByte
  if ds.isEmpty then none
  else
    let v : Int := if sgn.2 then -(digitsVal ds : Int) else (digitsVal ds : Int)
    if v < int64Min ∨ int64Max < v then none
    else some (v, ws + sgn.1 + ds.length)

/-- `canonicalize_uuid`: trim, require 36 bytes with dashes at offsets
8, 13, 18, 23 and hex digits elsewhere, lowercase the result. -/
def isHexByte (b : Byte) : Bool :=
  (48 ≤ b && b ≤ 57) || (97 ≤ b && b ≤ 102) || (65 ≤ b && b ≤ 70)

def toLowerByte (b : Byte) : Byte :=
  if 65 ≤ b ∧ b ≤ 90 then b + 32 else b

def uuidSlotOk (i : Nat) (b : Byte) : Bool :=
  if i = 8 ∨ i = 13 ∨ i = 18 ∨ i = 23 then b == 45 else isHexByte b

def canonicalizeUuid (raw : List Byte) : Except Err (List Byte) :=
  let s := trimCopy raw
  if s.length ≠ 36 then .error .badUuid
  else if s.enum.all (fun p => uuidSlotOk p.1 p.2) then
    -- lowering a dash leaves it unchanged, so mapping the whole string
    -- matches the per-index loop of the source
    .ok (s.map toLowerByte)
  else .error .badUuid

/-- `base64_decode_strict`: drop space, tab, CR and LF, empty input decodes
to empty, call EVP_DecodeBlock, then trim the padding bytes. -/
def base64DecodeStrict (p : Prims) (b64 : List Byte) : Except Err (List Byte) :=
  let s := b64.filter (fun c => !(c == 32 || c == 9 || c == 13 || c == 10))
  if s.isEmpty then .ok []
  else
    match p.evpDecodeBlock s with
    | none => .error .badBase64
    | some out =>
      let pad := (if s.getLast? = some 61 then 1 else 0) +
                 (if 2 ≤ s.length ∧ s.get? (s.length - 2) = some 61 then 1 else 0)
      if out.length < pad then .error .badBase64
      else .ok (out.take (out.length - pad))

/-- The JSON values the structured ingest path inspects.  Non-integer JSON
numbers are not needed by any claim and are omitted from the model; `jint`
covers the integer numbers of nlohmann::json. -/
inductive Json
  | jnull
  | jbool (b : Bool)
  | jint (n : Int)
  | jstr (s : List Byte)
deriving DecidableEq, Repr

/-- `canonicalize_typed_value(LogicalType, const json&)`: the structured
entry point. -/
def canonicalizeTypedValueJson (p : Prims) (t : LogicalType) (v : Json) :
    Except Err CanonValueM :=
  match t with
  | .null => .ok ⟨.null, nullBytes, []⟩
  | .bool =>
    match v with
    | .jbool b => .ok ⟨.bool, strBytes (if b then "true" else "false"), []⟩
    | _ => .error .badBool
  | .int =>
    match v with
    | .jint n => .ok ⟨.int, intToDecBytes n, []⟩
    | _ => .error .badInt
  | .float =>
    match v with
    | .jint n => .ok ⟨.float, p.floatCanonInt n, []⟩
    | _ => .error .badFloat
  | .text =>
    match v with
    | .jstr raw =>
      if p.validUtf8 raw then .ok ⟨.text, p.nfc (trimCopy raw), []⟩
      else .error .badEncoding
    | _ => .error .badEncoding
  | .uuid =>
    match v with
    | .jstr raw =>
      if p.validUtf8 raw then
        match canonicalizeUuid raw with
        | .ok c => .ok ⟨.uuid, c, []⟩
        | .error e => .error e
      else .error .badEncoding
    | _ => .error .badUuid
  | .bytes =>
    match v with
    | .jstr b64 =>
      if p.validUtf8 b64 then
        match base64DecodeStrict p b64 with
        | .ok blob => .ok ⟨.bytes, [], blob⟩
        | .error e => .error e
      else .error .badEncoding
    | _ => .error .badBase64
  | .jsonReserved => .error .reservedType

/-- `canonicalize_typed_value(LogicalType, std::string_view)`: the raw text
entry point used by the CLI token path. -/
def canonicalizeTypedValueRaw (p : Prims) (t : LogicalType) (raw : List Byte) :
    Except Err CanonValueM :=
  match t with
  | .null => .ok ⟨.null, nullBytes, []⟩
  | .bool =>
    let s := trimCopy raw
    if s = strBytes "true" ∨ s = strBytes "false" then .ok ⟨.bool, s, []⟩
    else .error .badBool
  | .int =>
    let s := trimCopy raw
    if s.isEmpty then .error .badInt
    else
      match stoll10 s with
      | none => .error .badInt
      | some (v, idx) =>
        if idx ≠ s.length then .error .badInt
        else .ok ⟨.int, intToDecBytes v, []⟩
  | .float =>
    let s := trimCopy raw
    if s = strBytes "inf" ∨ s = strBytes "+inf" then .ok ⟨.float, strBytes "inf", []⟩
    else if s = strBytes "-inf" then .ok ⟨.float, strBytes "-inf", []⟩
    else if s = strBytes "nan" ∨ s = strBytes "NaN" ∨ s = strBytes "NAN" then
      .error .badFloat
    else
      match p.strtodCanon s with
      | none => .error .badFloat
      | some c => .ok ⟨.float, c, []⟩
  | .text =>
    if p.validUtf8 raw then .ok ⟨.text, p.nfc (trimCopy raw), []⟩
    else .error .badEncoding
  | .uuid =>
    if p.validUtf8 raw then
      match canonicalizeUuid raw with
      | .ok c => .ok ⟨.uuid, c, []⟩
      | .error e => .error e
    else .error .badEncoding
  | .bytes =>
    if p.validUtf8 raw then
      match base64DecodeStrict p raw with
      | .ok blob => .ok ⟨.bytes, [], blob⟩
      | .error e => .error e
    else .error .badEncoding
  | .jsonReserved => .error .reservedType

/-- The prefix bytes of `canonicalize_field_hash`: the C++ expression
`std::string prefix = "field\0"` stops at the embedded NUL, so the prefix is
the five bytes of "field". -/
def fieldPrefixBytes : List Byte := strBytes "field"

/-- `canonicalize_field_hash`: trim and NFC-normalize the argument again,
prepend the prefix, hash. -/
def canonicalizeFieldHash (p : Prims) (name : List Byte) : List Byte :=
  p.sha256 (fieldPrefixBytes ++ p.nfc (trimCopy name))

/-- `logical_type_from_string` (after which `parse_type` rejects json). -/
def logicalTypeFromBytes (s : List Byte) : Except Err LogicalType :=
  if s = strBytes "null" then .ok .null
  else if s = strBytes "bool" then .ok .bool
  else if s = strBytes "int" then .ok .int
  else if s = strBytes "float" then .ok .float
  else if s = strBytes "text" then .ok .text
  else if s = strBytes "bytes" then .ok .bytes
  else if s = strBytes "uuid" then .ok .uuid
  else if s = strBytes "json" then .ok .jsonReserved
  else .error .parseError

/-- `parse_type`: trim, resolve the name, reject the reserved json type. -/
def parseType (s : List Byte) : Except Err LogicalType :=
  match logicalTypeFromBytes (trimCopy s) with
  | .error e => .error e
  | .ok .jsonReserved => .error .reservedType
  | .ok t => .ok t

/-- `split_once`: split at the first occurrence of `c`; when absent the
second component is empty. -/
def splitOnce (s : List Byte) (c : Byte) : List Byte × List Byte :=
  match s.findIdx? (fun b => b == c) with
  | none => (s, [])
  | some i => (s.take i, s.drop (i + 1))

/-- `parse_cli_type_value`: split a `type:value` token and canonicalize. -/
def parseCliTypeValue (p : Prims) (tv : List Byte) : Except Err CanonValueM :=
  let parts := splitOnce tv 58
  match parseType (trimCopy parts.1) with
  | .error e => .error e
  | .ok t => canonicalizeTypedValueRaw p t parts.2

/-- A row of the `fields` table. -/
structure FieldRowM where
  fieldId : Nat
  nameCanon : List Byte
  hash : List Byte
deriving DecidableEq, Repr

/-- A row of the `f_values` table; exactly one of the payload columns is
populated, the other is NULL. -/
structure ValueRowM where
  valueId : Nat
  typeTag : Byte
  canonText : Option (List Byte)
  canonBlob : Option (List Byte)
  hash : List Byte
deriving DecidableEq, Repr

/-- A row of the `facts` table (primary key record_id, field_id, ts). -/
structure FactM where
  r : Nat
  f : Nat
  v : Nat
  ts : Int
deriving DecidableEq, Repr

/-- A row of the `current_facts` table (primary key record_id, field_id). -/
structure CFactM where
  r : Nat
  f : Nat
  v : Nat
  ts : Int
deriving DecidableEq, Repr

/-- The persisted database plus the two cached format members of
`FelixSqlite` (`tagmap_`, `hashfmt_`). -/
structure DB where
  meta : List (String × String)
  tagmap : TagMapVersion
  hashfmt : HashFormatVersion
  fields : List FieldRowM
  values : List ValueRowM
  records : List (Nat × Int)
  facts : List FactM
  current : List CFactM
deriving DecidableEq, Repr

/-- `meta_get`. -/
def metaGet (m : List (String × String)) (k : String) : Option String :=
  (m.find? (fun kv => kv.1 == k)).map (fun kv => kv.2)

/-- `meta_set`: INSERT ... ON CONFLICT(k) DO UPDATE SET v. -/
def metaSet (m : List (String × String)) (k v : String) : List (String × String) :=
  if m.any (fun kv => kv.1 == k) then
    m.map (fun kv => if kv.1 == k then (kv.1, v) else kv)
  else m ++ [(k, v)]

/-- `load_format_defaults`: absent keys mean legacy on both axes, otherwise
each axis is matched against the current-format string. -/
def loadFormatDefaults (db : DB) : DB :=
  match metaGet db.meta "hash_format", metaGet db.meta "tag_map" with
  | some hv, some tv =>
    { db with
      tagmap := if tv = "felix_v03" then .felixV03 else .legacyV02
      hashfmt := if hv = "felix_v03_sep" then .felixV03Sep else .legacyNoSep }
  | _, _ => { db with tagmap := .legacyV02, hashfmt := .legacyNoSep }

/-- `ensure_record`: INSERT OR IGNORE with the creation timestamp. -/
def ensureRecord (db : DB) (recordId : Nat) (createdTs : Int) : DB :=
  if db.records.any (fun rc => rc.1 == recordId) then db
  else { db with records := db.records ++ [(recordId, createdTs)] }

/-- `get_or_create_field`: raw length guard, UTF-8 guard, canonicalize,
INSERT OR IGNORE by hash, SELECT field_id by hash.  New rowids continue the
sequence of previously assigned ids. -/
def getOrCreateField (p : Prims) (db : DB) (name : List Byte) :
    Except Err (DB × Nat) :=
  if 256 < name.length then .error .fieldTooLong
  else if !p.validUtf8 name then .error .badEncoding
  else
    let canon := p.nfc (trimCopy name)
    let h := canonicalizeFieldHash p canon
    match db.fields.find? (fun fr => fr.hash == h) with
    | some fr => .ok (db, fr.fieldId)
    | none =>
      let fid := db.fields.length + 1
      .ok ({ db with fields := db.fields ++ [⟨fid, canon, h⟩] }, fid)

/-- `get_or_create_value`: size limits, hash under the active format,
INSERT OR IGNORE by hash, SELECT value_id by hash. -/
def getOrCreateValue (p : Prims) (db : DB) (cv : CanonValueM) :
    Except Err (DB × Nat) :=
  if cv.logicalType = .text ∧ 1048576 < cv.canonText.length then .error .valueTooLarge
  else if cv.logicalType = .bytes ∧ 4194304 < cv.canonBlob.length then .error .valueTooLarge
  else
    let canonBytes := if cv.logicalType = .bytes then cv.canonBlob else cv.canonText
    match typeTagByte db.tagmap cv.logicalType with
    | .error e => .error e
    | .ok tag =>
      let h := p.sha256 (sha256Input db.hashfmt tag canonBytes)
      match db.values.find? (fun vr => vr.hash == h) with
      | some vr => .ok (db, vr.valueId)
      | none =>
        let vid := db.values.length + 1
        let row : ValueRowM :=
          if cv.logicalType = .bytes then ⟨vid, tag, none, some cv.canonBlob, h⟩
          else ⟨vid, tag, some cv.canonText, none, h⟩
        .ok ({ db with values := db.values ++ [row] }, vid)

/-- `get_current`: SELECT value_id, ts FROM current_facts by primary key. -/
def getCurrent (db : DB) (recordId fieldId : Nat) : Option (Nat × Int) :=
  (db.current.find? (fun c => c.r == recordId && c.f == fieldId)).map
    (fun c => (c.v, c.ts))

/-- `insert_fact`: plain INSERT; a primary-key conflict on
(record_id, field_id, ts) raises an error. -/
def insertFact (db : DB) (g : FactM) : Except Err DB :=
  if db.facts.any (fun g0 => g0.r == g.r && g0.f == g.f && g0.ts == g.ts) then
    .error .duplicate
  else .ok { db with facts := db.facts ++ [g] }

/-- The row transformation of the ON CONFLICT DO UPDATE arm of
`upsert_current_if_newer`: the conflicting row (same record and field)
receives the new value_id and ts when excluded.ts >= its ts. -/
def upsertRow (g : FactM) (c : CFactM) : CFactM :=
  if c.r == g.r && c.f == g.f && decide (c.ts ≤ g.ts) then ⟨c.r, c.f, g.v, g.ts⟩
  else c

/-- `upsert_current_if_newer`: INSERT, ON CONFLICT(record_id, field_id)
DO UPDATE SET value_id, ts WHERE excluded.ts >= current_facts.ts. -/
def upsertCurrent (db : DB) (g : FactM) : DB :=
  if db.current.any (fun c => c.r == g.r && c.f == g.f) then
    { db with current := db.current.map (upsertRow g) }
  else { db with current := db.current ++ [⟨g.r, g.f, g.v, g.ts⟩] }

/-- `query_current_eq`: record ids of current rows with the field and value. -/
def queryCurrentEq (db : DB) (fieldId valueId : Nat) : List Nat :=
  (db.current.filter (fun c => c.f == fieldId && c.v == valueId)).map (fun c => c.r)

/-- SELECT DISTINCT: first occurrences, in scan order. -/
def distinctList (l : List Nat) : List Nat :=
  l.foldl (fun acc x => if x ∈ acc then acc else acc ++ [x]) []

/-- `query_ever_eq`: SELECT DISTINCT record_id FROM facts by field and value. -/
def queryEverEq (db : DB) (fieldId valueId : Nat) : List Nat :=
  distinctList ((db.facts.filter (fun g => g.f == fieldId && g.v == valueId)).map
    (fun g => g.r))

/-- `rebuild_current_facts`: DELETE FROM current_facts, then insert, for each
(record_id, field_id) group of facts, the fact row attaining MAX(ts). -/
def rebuildCurrentFacts (db : DB) : DB :=
  { db with
    current := (db.facts.filter (fun g =>
        db.facts.all (fun g2 =>
          if g2.r = g.r ∧ g2.f = g.f then decide (g2.ts ≤ g.ts) else true))).map
      (fun g => ⟨g.r, g.f, g.v, g.ts⟩) }

/-- `init_schema`: tables and indexes are CREATE IF NOT EXISTS (a no-op of
the model), then the three meta keys are stamped to the current format, the
format members are reloaded, and the Null value is interned. -/
def initSchema (p : Prims) (db : DB) : Except Err DB :=
  let m1 := metaSet (metaSet (metaSet db.meta "felix_spec" "0.3") "tag_map" "felix_v03")
      "hash_format" "felix_v03_sep"
  let db2 := loadFormatDefaults { db with meta := m1 }
  match getOrCreateValue p db2 ⟨.null, nullBytes, []⟩ with
  | .error e => .error e
  | .ok (db3, _) => .ok db3

/-- `TemporalityMode`. -/
inductive TemporalityMode
  | eventDriven | observationDriven
deriving DecidableEq, Repr

/-- One parsed ingest item: field name and canonicalized value. -/
structure IngestItemM where
  fieldName : List Byte
  value : CanonValueM
deriving DecidableEq, Repr

/-- The body of the per-item loop of `ingest_items`: intern field and value,
apply the event-mode suppression, append the fact, upsert the current view. -/
def processItem (p : Prims) (recordId : Nat) (tsMs : Int) (mode : TemporalityMode)
    (db : DB) (it : IngestItemM) : Except Err DB :=
  match getOrCreateField p db it.fieldName with
  | .error e => .error e
  | .ok (db1, fid) =>
    match getOrCreateValue p db1 it.value with
    | .error e => .error e
    | .ok (db2, vid) =>
      if mode == .eventDriven && ((getCurrent db2 recordId fid).map Prod.fst == some vid)
      then .ok db2  -- unchanged => no fact
      else
        match insertFact db2 ⟨recordId, fid, vid, tsMs⟩ with
        | .error e => .error e
        | .ok db3 => .ok (upsertCurrent db3 ⟨recordId, fid, vid, tsMs⟩)

/-- The item loop of `ingest_items`; an exception aborts the loop. -/
def ingestLoop (p : Prims) (recordId : Nat) (tsMs : Int) (mode : TemporalityMode) :
    DB → List IngestItemM → Except Err DB
  | db, [] => .ok db
  | db, it :: rest =>
    match processItem p recordId tsMs mode db it with
    | .error e => .error e
    | .ok db1 => ingestLoop p recordId tsMs mode db1 rest

/-- `ingest_items` inside `with_tx`: ensure the record, enforce the per-call
field cap, run the item loop. -/
def ingestItems (p : Prims) (db : DB) (recordId : Nat) (tsMs : Int)
    (mode : TemporalityMode) (items : List IngestItemM) : Except Err DB :=
  let db0 := ensureRecord db recordId tsMs
  if 256 < items.length then .error .fieldsPerCallExceeded
  else ingestLoop p recordId tsMs mode db0 items

/-- `with_tx` around `ingest_items`: an error rolls the transaction back,
leaving the database exactly as before the call. -/
def runIngest (p : Prims) (db : DB) (recordId : Nat) (tsMs : Int)
    (mode : TemporalityMode) (items : List IngestItemM) : DB :=
  match ingestItems p db recordId tsMs mode items with
  | .ok db1 => db1
  | .error _ => db

/-- One ingest call of a workload. -/
structure IngestOp where
  recordId : Nat
  tsMs : Int
  mode : TemporalityMode
  items : List IngestItemM
deriving DecidableEq, Repr

/-- A sequence of ingest calls, each with transactional rollback. -/
def runOps (p : Prims) : DB → List IngestOp → DB
  | db, [] => db
  | db, op :: rest =>
    runOps p (runIngest p db op.recordId op.tsMs op.mode op.items) rest

/-- A database file with no tables yet: everything empty, format members at
their constructor defaults. -/
def emptyDB : DB :=
  { meta := [], tagmap := .legacyV02, hashfmt := .legacyNoSep,
    fields := [], values := [], records := [], facts := [], current := [] }

/-- The state produced by the `init` command on a fresh file: constructor
(`load_format_defaults`) followed by `init_schema`. -/
def initDB (p : Prims) : DB :=
  match initSchema p (loadFormatDefaults emptyDB) with
  | .ok db => db
  | .error _ => emptyDB

/-- `run_felix` for the `ingest` command: constructor, the unconditional
`init_schema` call performed for every command, then the transactional
ingest.  The second component reports success or the surfaced error; on an
ingest error the transaction is rolled back but the `init_schema` writes,
which run outside the transaction, persist. -/
def cliIngest (p : Prims) (db : DB) (recordId : Nat) (tsMs : Int)
    (mode : TemporalityMode) (items : List IngestItemM) : DB × Except Err Unit :=
  let db1 := loadFormatDefaults db
  match initSchema p db1 with
  | .error e => (db1, .error e)
  | .ok db2 =>
    match ingestItems p db2 recordId tsMs mode items with
    | .ok db3 => (db3, .ok ())
    | .error e => (db2, .error e)

/-- `run_felix` for `current_eq` / `ever_eq` (`isCurrent` selects which):
constructor, unconditional `init_schema`, then intern the field, parse and
canonicalize the typed value token, intern the value, and read.  The
interning statements autocommit, so on a later error their writes persist. -/
def cliQueryEq (p : Prims) (db : DB) (isCurrent : Bool)
    (fieldName : List Byte) (typedValue : List Byte) : DB × Except Err (List Nat) :=
  let db1 := loadFormatDefaults db
  match initSchema p db1 with
  | .error e => (db1, .error e)
  | .ok db2 =>
    match getOrCreateField p db2 fieldName with
    | .error e => (db2, .error e)
    | .ok (db3, fid) =>
      match parseCliTypeValue p typedValue with
      | .error e => (db3, .error e)
      | .ok cv =>
        match getOrCreateValue p db3 cv with
        | .error e => (db3, .error e)
        | .ok (db4, vid) =>
          (db4, .ok (if isCurrent then queryCurrentEq db4 fid vid
                     else queryEverEq db4 fid vid))

/-- Concrete primitives for witnesses and counterexamples, agreeing with the
real libraries on the ASCII inputs used there: NFC is the identity on ASCII,
every ASCII string is valid UTF-8, and the digest stand-in is injective like
SHA-256 is assumed to be. -/
def asciiPrims : Prims :=
  { sha256 := id
    nfc := id
    validUtf8 := fun s => s.all (fun b => decide (b < 128))
    floatCanonInt := fun _ => []
    strtodCanon := fun _ => none
    evpDecodeBlock := fun _ => none }

/-- Facts for one (record, field) pair. -/
def factsFor (db : DB) (recordId fieldId : Nat) : List FactM :=
  db.facts.filter (fun g => g.r == recordId && g.f == fieldId)

/-- Current rows for one (record, field) pair. -/
def currentFor (db : DB) (recordId fieldId : Nat) : List CFactM :=
  db.current.filter (fun c => c.r == recordId && c.f == fieldId)

/-- Negation of the two per-value size guards of `get_or_create_value`. -/
def valueSizeOk (cv : CanonValueM) : Bool :=
  !(cv.logicalType == .text && decide (1048576 < cv.canonText.length)) &&
  !(cv.logicalType == .bytes && decide (4194304 < cv.canonBlob.length))

/-- The facts primary key (record_id, field_id, ts): no two rows share it. -/
def FactsPK (db : DB) : Prop :=
  db.facts.Pairwise (fun g1 g2 => g1.r = g2.r → g1.f = g2.f → g1.ts ≠ g2.ts)

/-- The current_facts primary key (record_id, field_id): no two rows share it. -/
def CurrentPK (db : DB) : Prop :=
  db.current.Pairwise (fun c1 c2 => c1.r = c2.r → c1.f = c2.f → False)

/-- Every current row is backed by a fact row with the same four components,
and its ts is maximal among the facts of its (record, field) pair. -/
def CurrentMax (db : DB) : Prop :=
  ∀ c ∈ db.current,
    (⟨c.r, c.f, c.v, c.ts⟩ : FactM) ∈ db.facts ∧
    ∀ g ∈ db.facts, g.r = c.r → g.f = c.f → g.ts ≤ c.ts

/-- Every (record, field) pair with a fact has a current row. -/
def CurrentComplete (db : DB) : Prop :=
  ∀ g ∈ db.facts, ∃ c ∈ db.current, c.r = g.r ∧ c.f = g.f

/-- The engine invariant linking the append-only log to the materialized
current view. -/
def EngineInv (db : DB) : Prop :=
  FactsPK db ∧ CurrentPK db ∧ CurrentMax db ∧ CurrentComplete db

/-- A database file whose meta rows declare the legacy format on both axes
(the situation of spec scenario S7). -/
def legacyMetaDB : DB :=
  { meta := [("tag_map", "legacy_v02"), ("hash_format", "legacy_no_sep")],
    tagmap := .legacyV02, hashfmt := .legacyNoSep,
    fields := [], values := [], records := [], facts := [], current := [] }

theorem drop_countLeadSpace (s : List Byte) :
    s.drop (countLeadSpace s) = s.dropWhile isCSpace := by
  induction s with
  | nil => rfl
  | cons b r ih =>
    simp only [countLeadSpace, List.dropWhile]
    by_cases hb : isCSpace b
    · simp [hb, ih]
    · simp [hb]

theorem trimCopy_eq_dropWhile (s : List Byte) :
    trimCopy s = ((s.dropWhile isCSpace).reverse.dropWhile isCSpace).reverse := by
  unfold trimCopy
  rw [drop_countLeadSpace]
  rw [← drop_countLeadSpace (s.dropWhile isCSpace).reverse]
  rw [List.reverse_drop]
  simp

theorem dropWhile_of_all_false {q : Byte → Bool} {s : List Byte}
    (h : ∀ b ∈ s, q b = false) : s.dropWhile q = s := by
  cases s with
  | nil => rfl
  | cons b r => simp [List.dropWhile, h b (by simp)]

theorem trimCopy_of_no_space {s : List Byte} (h : ∀ b ∈ s, isCSpace b = false) :
    trimCopy s = s := by
  rw [trimCopy_eq_dropWhile, dropWhile_of_all_false h,
      dropWhile_of_all_false (fun b hb => h b (List.mem_reverse.mp hb)), List.reverse_reverse]

theorem getOrCreateField_frame {p : Prims} {db db' : DB} {name : List Byte} {fid : Nat}
    (h : getOrCreateField p db name = .ok (db', fid)) :
    db'.meta = db.meta ∧ db'.tagmap = db.tagmap ∧ db'.hashfmt = db.hashfmt ∧
    db'.values = db.values ∧ db'.records = db.records ∧ db'.facts = db.facts ∧
    db'.current = db.current ∧ (∃ ext, db'.fields = db.fields ++ ext) := by
  unfold getOrCreateField at h
  split at h
  · simp at h
  split at h
  · simp at h
  dsimp only at h
  split at h
  · simp only [Except.ok.injEq, Prod.mk.injEq] at h
    obtain ⟨h1, -⟩ := h
    subst h1
    exact ⟨rfl, rfl, rfl, rfl, rfl, rfl, rfl, [], by simp⟩
  · simp only [Except.ok.injEq, Prod.mk.injEq] at h
    obtain ⟨h1, -⟩ := h
    subst h1
    exact ⟨rfl, rfl, rfl, rfl, rfl, rfl, rfl, _, rfl⟩

theorem getOrCreateValue_frame {p : Prims} {db db' : DB} {cv : CanonValueM} {vid : Nat}
    (h : getOrCreateValue p db cv = .ok (db', vid)) :
    db'.meta = db.meta ∧ db'.tagmap = db.tagmap ∧ db'.hashfmt = db.hashfmt ∧
    db'.fields = db.fields ∧ db'.records = db.records ∧ db'.facts = db.facts ∧
    db'.current = db.current ∧ (∃ ext, db'.values = db.values ++ ext) := by
  unfold getOrCreateValue at h
  split at h
  · simp at h
  split at h
  · simp at h
  split at h
  all_goals (
    split at h
    · simp at h
    · try dsimp only at h
      split at h
      · simp only [Except.ok.injEq, Prod.mk.injEq] at h
        obtain ⟨h1, -⟩ := h
        subst h1
        exact ⟨rfl, rfl, rfl, rfl, rfl, rfl, rfl, [], by simp⟩
      · try dsimp only at h
        simp only [Except.ok.injEq, Prod.mk.injEq] at h
        obtain ⟨h1, -⟩ := h
        subst h1
        exact ⟨rfl, rfl, rfl, rfl, rfl, rfl, rfl, _, rfl⟩)

theorem ensureRecord_frame (db : DB) (recordId : Nat) (ts : Int) :
    (ensureRecord db recordId ts).meta = db.meta ∧
    (ensureRecord db recordId ts).tagmap = db.tagmap ∧
    (ensureRecord db recordId ts).hashfmt = db.hashfmt ∧
    (ensureRecord db recordId ts).fields = db.fields ∧
    (ensureRecord db recordId ts).values = db.values ∧
    (ensureRecord db recordId ts).facts = db.facts ∧
    (ensureRecord db recordId ts).current = db.current := by
  unfold ensureRecord
  split <;> exact ⟨rfl, rfl, rfl, rfl, rfl, rfl, rfl⟩

theorem insertFact_ok {db db' : DB} {g : FactM} (h : insertFact db g = .ok db') :
    (∀ g0 ∈ db.facts, ¬(g0.r = g.r ∧ g0.f = g.f ∧ g0.ts = g.ts)) ∧
    db' = { db with facts := db.facts ++ [g] } := by
  unfold insertFact at h
  split at h
  · simp at h
  · next hno =>
    refine ⟨fun g0 hg0 hc => hno ?_, ?_⟩
    · simp only [List.any_eq_true, Bool.and_eq_true, beq_iff_eq]
      exact ⟨g0, hg0, ⟨hc.1, hc.2.1⟩, hc.2.2⟩
    · simp only [Except.ok.injEq] at h
      exact h.symm

theorem upsertCurrent_frame (db : DB) (g : FactM) :
    (upsertCurrent db g).meta = db.meta ∧
    (upsertCurrent db g).tagmap = db.tagmap ∧
    (upsertCurrent db g).hashfmt = db.hashfmt ∧
    (upsertCurrent db g).fields = db.fields ∧
    (upsertCurrent db g).values = db.values ∧
    (upsertCurrent db g).records = db.records ∧
    (upsertCurrent db g).facts = db.facts := by
  unfold upsertCurrent
  split <;> exact ⟨rfl, rfl, rfl, rfl, rfl, rfl, rfl⟩

theorem loadFormatDefaults_frame (db : DB) :
    (loadFormatDefaults db).fields = db.fields ∧
    (loadFormatDefaults db).values = db.values ∧
    (loadFormatDefaults db).records = db.records ∧
    (loadFormatDefaults db).facts = db.facts ∧
    (loadFormatDefaults db).current = db.current ∧
    (loadFormatDefaults db).meta = db.meta := by
  unfold loadFormatDefaults
  split <;> exact ⟨rfl, rfl, rfl, rfl, rfl, rfl⟩

theorem initSchema_frame {p : Prims} {db db' : DB} (h : initSchema p db = .ok db') :
    db'.fields = db.fields ∧ db'.records = db.records ∧ db'.facts = db.facts ∧
    db'.current = db.current ∧ (∃ ext, db'.values = db.values ++ ext) := by
  unfold initSchema at h
  dsimp only at h
  split at h
  · simp at h
  · next db3 x heq =>
    simp only [Except.ok.injEq] at h
    subst h
    obtain ⟨-, -, -, hfl, hrec, hfac, hcur, hval⟩ := getOrCreateValue_frame heq
    obtain ⟨lf, lv, lr, lfac, lcur, -⟩ := loadFormatDefaults_frame
      { db with meta := metaSet (metaSet (metaSet db.meta "felix_spec" "0.3")
          "tag_map" "felix_v03") "hash_format" "felix_v03_sep" }
    refine ⟨?_, ?_, ?_, ?_, ?_⟩
    · rw [hfl, lf]
    · rw [hrec, lr]
    · rw [hfac, lfac]
    · rw [hcur, lcur]
    · obtain ⟨ext, hv⟩ := hval
      exact ⟨ext, by rw [hv, lv]⟩

theorem inv_of_frame {db db' : DB} (hf : db'.facts = db.facts)
    (hc : db'.current = db.current) (h : EngineInv db) : EngineInv db' := by
  unfold EngineInv FactsPK CurrentPK CurrentMax CurrentComplete at *
  rw [hf, hc]
  exact h

theorem upsertRow_r (g : FactM) (c : CFactM) : (upsertRow g c).r = c.r := by
  unfold upsertRow
  split <;> rfl

theorem upsertRow_f (g : FactM) (c : CFactM) : (upsertRow g c).f = c.f := by
  unfold upsertRow
  split <;> rfl

theorem inv_insert_upsert {db db2 : DB} {g : FactM}
    (hInv : EngineInv db) (hins : insertFact db g = .ok db2) :
    EngineInv (upsertCurrent db2 g) := by
  obtain ⟨hPK, hCPK, hMax, hCompl⟩ := hInv
  obtain ⟨hnew, hdb2⟩ := insertFact_ok hins
  subst hdb2
  have hfactsPK :
      (db.facts ++ [g]).Pairwise (fun g1 g2 => g1.r = g2.r → g1.f = g2.f → g1.ts ≠ g2.ts) := by
    rw [List.pairwise_append]
    refine ⟨hPK, by simp, ?_⟩
    intro a ha b hb
    simp only [List.mem_singleton] at hb
    subst hb
    exact fun h1 h2 h3 => hnew a ha ⟨h1, h2, h3⟩
  unfold upsertCurrent
  split
  · -- ON CONFLICT branch: a current row with the key exists
    next hex =>
    simp only [List.any_eq_true, Bool.and_eq_true, beq_iff_eq] at hex
    obtain ⟨c0, hc0mem, hc0r, hc0f⟩ := hex
    refine ⟨hfactsPK, ?_, ?_, ?_⟩
    · -- CurrentPK: upsertRow preserves both key components
      unfold CurrentPK
      rw [List.pairwise_map]
      refine hCPK.imp ?_
      intro a b hab h1 h2
      rw [upsertRow_r, upsertRow_r] at h1
      rw [upsertRow_f, upsertRow_f] at h2
      exact hab h1 h2
    · -- CurrentMax
      unfold CurrentMax
      intro cx hcx
      rw [List.mem_map] at hcx
      obtain ⟨c, hcmem, hcx⟩ := hcx
      subst hcx
      obtain ⟨hcfact, hcmax⟩ := hMax c hcmem
      unfold upsertRow
      by_cases hcond : (c.r == g.r && c.f == g.f && decide (c.ts ≤ g.ts)) = true
      · simp only [hcond, if_true]
        simp only [Bool.and_eq_true, beq_iff_eq, decide_eq_true_eq] at hcond
        obtain ⟨⟨hr, hf⟩, hts⟩ := hcond
        constructor
        · rw [List.mem_append]
          right
          simp [hr, hf]
        · intro g2 hg2 h1 h2
          rcases List.mem_append.mp hg2 with hg2 | hg2
          · exact le_trans (hcmax g2 hg2 h1 h2) hts
          · simp only [List.mem_singleton] at hg2
            subst hg2
            exact le_refl _
      · simp only [hcond, if_false]
        constructor
        · exact List.mem_append_left _ hcfact
        · intro g2 hg2 h1 h2
          rcases List.mem_append.mp hg2 with hg2 | hg2
          · exact hcmax g2 hg2 h1 h2
          · simp only [List.mem_singleton] at hg2
            subst hg2
            simp only [Bool.and_eq_true, beq_iff_eq, decide_eq_true_eq, not_and] at hcond
            exact le_of_not_le (hcond ⟨h1.symm, h2.symm⟩)
    · -- CurrentComplete
      unfold CurrentComplete
      intro g2 hg2
      rcases List.mem_append.mp hg2 with hg2 | hg2
      · obtain ⟨c, hcmem, hcr, hcf⟩ := hCompl g2 hg2
        exact ⟨upsertRow g c, List.mem_map_of_mem _ hcmem,
          (upsertRow_r g c).trans hcr, (upsertRow_f g c).trans hcf⟩
      · simp only [List.mem_singleton] at hg2
        subst hg2
        exact ⟨upsertRow g2 c0, List.mem_map_of_mem _ hc0mem,
          (upsertRow_r g2 c0).trans hc0r, (upsertRow_f g2 c0).trans hc0f⟩
  · -- plain INSERT branch: no current row with the key
    next hex =>
    have hexno : ∀ x ∈ db.current, ¬(x.r = g.r ∧ x.f = g.f) := by
      intro x hx hxk
      apply hex
      simp only [List.any_eq_true, Bool.and_eq_true, beq_iff_eq]
      exact ⟨x, hx, hxk.1, hxk.2⟩
    refine ⟨hfactsPK, ?_, ?_, ?_⟩
    · unfold CurrentPK
      rw [List.pairwise_append]
      refine ⟨hCPK, by simp, ?_⟩
      intro a ha b hb
      simp only [List.mem_singleton] at hb
      subst hb
      intro h1 h2
      exact hexno a ha ⟨h1, h2⟩
    · unfold CurrentMax
      intro cx hcx
      rcases List.mem_append.mp hcx with hcx | hcx
      · obtain ⟨hcfact, hcmax⟩ := hMax cx hcx
        constructor
        · exact List.mem_append_left _ hcfact
        · intro g2 hg2 h1 h2
          rcases List.mem_append.mp hg2 with hg2 | hg2
          · exact hcmax g2 hg2 h1 h2
          · simp only [List.mem_singleton] at hg2
            subst hg2
            exact absurd ⟨h1.symm, h2.symm⟩ (hexno cx hcx)
      · simp only [List.mem_singleton] at hcx
        subst hcx
        constructor
        · rw [List.mem_append]
          right
          simp
        · intro g2 hg2 h1 h2
          rcases List.mem_append.mp hg2 with hg2 | hg2
          · obtain ⟨c, hcmem, hcr, hcf⟩ := hCompl g2 hg2
            exact absurd ⟨hcr ▸ h1, hcf ▸ h2⟩ (hexno c hcmem)
          · simp only [List.mem_singleton] at hg2
            subst hg2
            exact le_refl _
    · unfold CurrentComplete
      intro g2 hg2
      rcases List.mem_append.mp hg2 with hg2 | hg2
      · obtain ⟨c, hcmem, hcr, hcf⟩ := hCompl g2 hg2
        exact ⟨c, List.mem_append_left _ hcmem, hcr, hcf⟩
      · simp only [List.mem_singleton] at hg2
        subst hg2
        exact ⟨⟨g2.r, g2.f, g2.v, g2.ts⟩, List.mem_append_right _ (by simp), rfl, rfl⟩

theorem inv_processItem {p : Prims} {r : Nat} {ts : Int} {mode : TemporalityMode}
    {db db' : DB} {it : IngestItemM} (hInv : EngineInv db)
    (h : processItem p r ts mode db it = .ok db') : EngineInv db' := by
  unfold processItem at h
  cases hf : getOrCreateField p db it.fieldName with
  | error e => rw [hf] at h; simp at h
  | ok pr =>
    obtain ⟨db1, fid⟩ := pr
    rw [hf] at h
    dsimp only at h
    have hInv1 : EngineInv db1 :=
      inv_of_frame (getOrCreateField_frame hf).2.2.2.2.2.1
        (getOrCreateField_frame hf).2.2.2.2.2.2.1 hInv
    cases hv : getOrCreateValue p db1 it.value with
    | error e => rw [hv] at h; simp at h
    | ok pr2 =>
      obtain ⟨db2, vid⟩ := pr2
      rw [hv] at h
      dsimp only at h
      have hInv2 : EngineInv db2 :=
        inv_of_frame (getOrCreateValue_frame hv).2.2.2.2.2.1
          (getOrCreateValue_frame hv).2.2.2.2.2.2.1 hInv1
      split at h
      · simp only [Except.ok.injEq] at h
        subst h
        exact hInv2
      · cases hi : insertFact db2 ⟨r, fid, vid, ts⟩ with
        | error e => rw [hi] at h; simp at h
        | ok db3 =>
          rw [hi] at h
          simp only [Except.ok.injEq] at h
          subst h
          exact inv_insert_upsert hInv2 hi

theorem inv_ingestLoop {p : Prims} {r : Nat} {ts : Int} {mode : TemporalityMode} :
    ∀ {items : List IngestItemM} {db db' : DB}, EngineInv db →
      ingestLoop p r ts mode db items = .ok db' → EngineInv db'
  | [], db, db', hInv, h => by
      unfold ingestLoop at h
      simp only [Except.ok.injEq] at h
      exact h ▸ hInv
  | it :: rest, db, db', hInv, h => by
      unfold ingestLoop at h
      cases hp : processItem p r ts mode db it with
      | error e => rw [hp] at h; simp at h
      | ok db1 =>
        rw [hp] at h
        exact inv_ingestLoop (inv_processItem hInv hp) h

theorem inv_ensureRecord {db : DB} (r : Nat) (ts : Int) (hInv : EngineInv db) :
    EngineInv (ensureRecord db r ts) :=
  inv_of_frame (ensureRecord_frame db r ts).2.2.2.2.2.1
    (ensureRecord_frame db r ts).2.2.2.2.2.2 hInv

theorem inv_ingestItems {p : Prims} {db db' : DB} {r : Nat} {ts : Int}
    {mode : TemporalityMode} {items : List IngestItemM} (hInv : EngineInv db)
    (h : ingestItems p db r ts mode items = .ok db') : EngineInv db' := by
  unfold ingestItems at h
  dsimp only at h
  split at h
  · simp at h
  · exact inv_ingestLoop (inv_ensureRecord r ts hInv) h

theorem inv_runIngest {p : Prims} {db : DB} {r : Nat} {ts : Int}
    {mode : TemporalityMode} {items : List IngestItemM} (hInv : EngineInv db) :
    EngineInv (runIngest p db r ts mode items) := by
  unfold runIngest
  split
  · next db1 heq => exact inv_ingestItems hInv heq
  · exact hInv

theorem inv_runOps {p : Prims} : ∀ {ops : List IngestOp} {db : DB},
    EngineInv db → EngineInv (runOps p db ops)
  | [], _, hInv => hInv
  | _ :: rest, _, hInv => by
      unfold runOps
      exact inv_runOps (inv_runIngest hInv)

theorem initDB_eq (p : Prims) :
    initDB p = { meta := [("felix_spec", "0.3"), ("tag_map", "felix_v03"),
                          ("hash_format", "felix_v03_sep")],
                 tagmap := .felixV03, hashfmt := .felixV03Sep,
                 fields := [],
                 values := [⟨1, 0, some nullBytes, none, p.sha256 (0 :: 0 :: nullBytes)⟩],
                 records := [], facts := [], current := [] } := rfl

theorem inv_initDB (p : Prims) : EngineInv (initDB p) := by
  rw [initDB_eq]
  refine ⟨?_, ?_, ?_, ?_⟩ <;>
    simp [FactsPK, CurrentPK, CurrentMax, CurrentComplete]

theorem filter_key_single {l : List CFactM} {r f : Nat} {c : CFactM}
    (hpw : l.Pairwise (fun c1 c2 => c1.r = c2.r → c1.f = c2.f → False))
    (hc : c ∈ l) (hcr : c.r = r) (hcf : c.f = f) :
    l.filter (fun x => x.r == r && x.f == f) = [c] := by
  induction l with
  | nil => simp at hc
  | cons a t ih =>
    rw [List.pairwise_cons] at hpw
    obtain ⟨ha, hpw2⟩ := hpw
    rcases List.mem_cons.mp hc with hca | hct
    · subst hca
      rw [List.filter_cons_of_pos (by simp [hcr, hcf])]
      have : t.filter (fun x => x.r == r && x.f == f) = [] := by
        rw [List.filter_eq_nil_iff]
        intro x hx hxk
        simp only [Bool.and_eq_true, beq_iff_eq] at hxk
        exact ha x hx (hcr.trans hxk.1.symm) (hcf.trans hxk.2.symm)
      rw [this]
    · have hpred : (a.r == r && a.f == f) = false := by
        rw [Bool.eq_false_iff]
        intro hta
        simp only [Bool.and_eq_true, beq_iff_eq] at hta
        exact ha c hct (hta.1.trans hcr.symm) (hta.2.trans hcf.symm)
      rw [List.filter_cons_of_neg (by simp [hpred])]
      exact ih hpw2 hct

theorem factsPK_symm :
    Symmetric (fun g1 g2 : FactM => g1.r = g2.r → g1.f = g2.f → g1.ts ≠ g2.ts) := by
  intro a b hab h1 h2 h3
  exact hab h1.symm h2.symm h3.symm

/-- Claim C1: after any sequence of ingest operations on an initialized
database (either temporality mode, timestamps arriving in any order), every
(record, field) pair that appears in the facts table has exactly one
current_facts row; its ts equals the maximum ts over the facts of the pair,
and its value_id is the value_id of the fact at that maximum ts. -/
theorem current_matches_max_ts (p : Prims) (ops : List IngestOp) (r f : Nat)
    (hne : factsFor (runOps p (initDB p) ops) r f ≠ []) :
    ∃ c : CFactM,
      currentFor (runOps p (initDB p) ops) r f = [c] ∧
      (∀ g ∈ factsFor (runOps p (initDB p) ops) r f, g.ts ≤ c.ts) ∧
      (⟨r, f, c.v, c.ts⟩ : FactM) ∈ (runOps p (initDB p) ops).facts ∧
      (∀ g ∈ (runOps p (initDB p) ops).facts,
        g.r = r → g.f = f → g.ts = c.ts → g.v = c.v) := by
  obtain ⟨hPK, hCPK, hMax, hCompl⟩ := @inv_runOps p ops (initDB p) (inv_initDB p)
  obtain ⟨g0, hg0⟩ := List.exists_mem_of_ne_nil _ hne
  unfold factsFor at hg0
  rw [List.mem_filter] at hg0
  obtain ⟨hg0mem, hg0k⟩ := hg0
  simp only [Bool.and_eq_true, beq_iff_eq] at hg0k
  obtain ⟨c, hcmem, hcr, hcf⟩ := hCompl g0 hg0mem
  have hcr2 : c.r = r := hcr.trans hg0k.1
  have hcf2 : c.f = f := hcf.trans hg0k.2
  obtain ⟨hcfact, hcmax⟩ := hMax c hcmem
  refine ⟨c, ?_, ?_, ?_, ?_⟩
  · exact filter_key_single hCPK hcmem hcr2 hcf2
  · intro g hg
    unfold factsFor at hg
    rw [List.mem_filter] at hg
    simp only [Bool.and_eq_true, beq_iff_eq] at hg
    exact hcmax g hg.1 (hg.2.1.trans hcr2.symm) (hg.2.2.trans hcf2.symm)
  · rw [← hcr2, ← hcf2]
    exact hcfact
  · intro g hg h1 h2 h3
    unfold FactsPK at hPK
    by_cases hne2 : g = (⟨c.r, c.f, c.v, c.ts⟩ : FactM)
    · rw [hne2]
    · have hr := List.Pairwise.forall factsPK_symm hPK hg hcfact hne2
      exact absurd h3 (hr (h1.trans hcr2.symm) (h2.trans hcf2.symm))

/-- Witness for C1: a concrete two-record workload with out-of-order
timestamps. -/
theorem current_matches_max_ts_witness :
    factsFor (runOps asciiPrims (initDB asciiPrims)
      [⟨1, 5, .observationDriven, [⟨strBytes "a", ⟨.text, strBytes "x", []⟩⟩]⟩,
       ⟨1, 3, .observationDriven, [⟨strBytes "a", ⟨.text, strBytes "y", []⟩⟩]⟩]) 1 1 ≠ [] ∧
    (∃ c : CFactM,
      currentFor (runOps asciiPrims (initDB asciiPrims)
        [⟨1, 5, .observationDriven, [⟨strBytes "a", ⟨.text, strBytes "x", []⟩⟩]⟩,
         ⟨1, 3, .observationDriven, [⟨strBytes "a", ⟨.text, strBytes "y", []⟩⟩]⟩]) 1 1 = [c] ∧
      (∀ g ∈ factsFor (runOps asciiPrims (initDB asciiPrims)
        [⟨1, 5, .observationDriven, [⟨strBytes "a", ⟨.text, strBytes "x", []⟩⟩]⟩,
         ⟨1, 3, .observationDriven, [⟨strBytes "a", ⟨.text, strBytes "y", []⟩⟩]⟩]) 1 1,
        g.ts ≤ c.ts) ∧
      (⟨1, 1, c.v, c.ts⟩ : FactM) ∈ (runOps asciiPrims (initDB asciiPrims)
        [⟨1, 5, .observationDriven, [⟨strBytes "a", ⟨.text, strBytes "x", []⟩⟩]⟩,
         ⟨1, 3, .observationDriven, [⟨strBytes "a", ⟨.text, strBytes "y", []⟩⟩]⟩]).facts ∧
      (∀ g ∈ (runOps asciiPrims (initDB asciiPrims)
        [⟨1, 5, .observationDriven, [⟨strBytes "a", ⟨.text, strBytes "x", []⟩⟩]⟩,
         ⟨1, 3, .observationDriven, [⟨strBytes "a", ⟨.text, strBytes "y", []⟩⟩]⟩]).facts,
        g.r = 1 → g.f = 1 → g.ts = c.ts → g.v = c.v)) :=
  ⟨by decide,
   current_matches_max_ts asciiPrims
     [⟨1, 5, .observationDriven, [⟨strBytes "a", ⟨.text, strBytes "x", []⟩⟩]⟩,
      ⟨1, 3, .observationDriven, [⟨strBytes "a", ⟨.text, strBytes "y", []⟩⟩]⟩] 1 1 (by decide)⟩

theorem getOrCreateField_total (p : Prims) (db : DB) (name : List Byte)
    (h1 : name.length ≤ 256) (h2 : p.validUtf8 name = true) :
    ∃ db' fid, getOrCreateField p db name = .ok (db', fid) := by
  unfold getOrCreateField
  rw [if_neg (by omega), if_neg (by simp [h2])]
  dsimp only
  cases hfind : db.fields.find?
      (fun fr => fr.hash == canonicalizeFieldHash p (p.nfc (trimCopy name))) with
  | some fr => exact ⟨db, fr.fieldId, rfl⟩
  | none => exact ⟨_, _, rfl⟩

theorem getOrCreateValue_total (p : Prims) (db : DB) (cv : CanonValueM)
    (htm : db.tagmap = .felixV03) (hcv : valueSizeOk cv = true) :
    ∃ db' vid, getOrCreateValue p db cv = .ok (db', vid) := by
  unfold valueSizeOk at hcv
  simp only [Bool.and_eq_true, Bool.not_eq_true', Bool.and_eq_false_iff,
    beq_eq_false_iff_ne, decide_eq_false_iff_not, not_lt] at hcv
  unfold getOrCreateValue
  rw [if_neg (by
    rcases hcv.1 with h | h
    · exact fun hc => h hc.1
    · exact fun hc => absurd hc.2 (not_lt.mpr h))]
  rw [if_neg (by
    rcases hcv.2 with h | h
    · exact fun hc => h hc.1
    · exact fun hc => absurd hc.2 (not_lt.mpr h))]
  dsimp only
  rw [htm]
  cases ht : typeTagByte .felixV03 cv.logicalType with
  | error e =>
    rcases hl : cv.logicalType <;> rw [hl] at ht <;> simp [typeTagByte] at ht
  | ok tag =>
    dsimp only
    cases hfind : db.values.find? (fun vr =>
        vr.hash == p.sha256 (sha256Input db.hashfmt tag
          (if cv.logicalType = .bytes then cv.canonBlob else cv.canonText))) with
    | some vr => exact ⟨db, vr.valueId, rfl⟩
    | none => exact ⟨_, _, rfl⟩

theorem getOrCreateField_stable {p : Prims} {db db' : DB} {name : List Byte} {fid : Nat}
    (h : getOrCreateField p db name = .ok (db', fid)) (db2 : DB)
    (hf : db2.fields = db'.fields) :
    getOrCreateField p db2 name = .ok (db2, fid) := by
  unfold getOrCreateField at h ⊢
  split at h
  · simp at h
  next hlen =>
  split at h
  · simp at h
  next hutf =>
  rw [if_neg hlen, if_neg hutf]
  dsimp only at h ⊢
  split at h
  · next fr hfind =>
    simp only [Except.ok.injEq, Prod.mk.injEq] at h
    obtain ⟨hdb, hfid⟩ := h
    subst hdb
    rw [hf, hfind]
    dsimp only
    rw [hfid]
  · next hfind =>
    simp only [Except.ok.injEq, Prod.mk.injEq] at h
    obtain ⟨hdb, hfid⟩ := h
    rw [hf, ← hdb]
    dsimp only
    rw [List.find?_append, hfind]
    simp only [Option.none_or]
    rw [List.find?_cons_of_pos _ (by simp)]
    dsimp only
    rw [← hfid]

theorem getOrCreateValue_stable {p : Prims} {db db' : DB} {cv : CanonValueM} {vid : Nat}
    (h : getOrCreateValue p db cv = .ok (db', vid)) (db2 : DB)
    (hv : db2.values = db'.values) (ht : db2.tagmap = db.tagmap)
    (hh : db2.hashfmt = db.hashfmt) :
    getOrCreateValue p db2 cv = .ok (db2, vid) := by
  unfold getOrCreateValue at h ⊢
  split at h
  · simp at h
  next hs1 =>
  split at h
  · simp at h
  next hs2 =>
  rw [if_neg hs1, if_neg hs2]
  dsimp only at h ⊢
  rw [ht, hh]
  cases htag : typeTagByte db.tagmap cv.logicalType with
  | error e =>
    rw [htag] at h
    simp at h
  | ok tag =>
    rw [htag] at h
    dsimp only at h ⊢
    split at h
    · next vr hfind =>
      simp only [Except.ok.injEq, Prod.mk.injEq] at h
      obtain ⟨hdb, hvid⟩ := h
      subst hdb
      rw [hv, hfind]
      dsimp only
      rw [hvid]
    · next hfind =>
      simp only [Except.ok.injEq, Prod.mk.injEq] at h
      obtain ⟨hdb, hvid⟩ := h
      rw [hv, ← hdb]
      dsimp only
      rw [List.find?_append, hfind]
      simp only [Option.none_or]
      rw [List.find?_cons_of_pos _ (by split <;> simp)]
      dsimp only
      rw [← hvid]
      split <;> rfl

theorem processItem_fresh (p : Prims) (db : DB) (r : Nat) (ts : Int)
    (mode : TemporalityMode) (name : List Byte) (cv : CanonValueM)
    (htm : db.tagmap = .felixV03)
    (hn1 : name.length ≤ 256) (hn2 : p.validUtf8 name = true)
    (hcv : valueSizeOk cv = true)
    (hfr : ∀ g ∈ db.facts, g.r ≠ r) (hcr : ∀ c ∈ db.current, c.r ≠ r) :
    ∃ fid vid st',
      processItem p r ts mode db ⟨name, cv⟩ = .ok st' ∧
      st'.facts = db.facts ++ [⟨r, fid, vid, ts⟩] ∧
      st'.current = db.current ++ [⟨r, fid, vid, ts⟩] ∧
      st'.tagmap = db.tagmap ∧ st'.hashfmt = db.hashfmt ∧
      st'.records = db.records ∧ st'.meta = db.meta ∧
      getOrCreateField p st' name = .ok (st', fid) ∧
      getOrCreateValue p st' cv = .ok (st', vid) := by
  obtain ⟨db1, fid, hF⟩ := getOrCreateField_total p db name hn1 hn2
  obtain ⟨fmeta, ftag, fhash, fvals, frecs, ffacts, fcur, -⟩ := getOrCreateField_frame hF
  obtain ⟨db2, vid, hV⟩ := getOrCreateValue_total p db1 cv (ftag.trans htm) hcv
  obtain ⟨vmeta, vtag, vhash, vflds, vrecs, vfacts, vcur, -⟩ := getOrCreateValue_frame hV
  have hcurnone : getCurrent db2 r fid = none := by
    unfold getCurrent
    rw [vcur, fcur]
    rw [List.find?_eq_none.mpr]
    · rfl
    · intro c hc
      simp [hcr c hc]
  have hins : insertFact db2 ⟨r, fid, vid, ts⟩ =
      .ok { db2 with facts := db2.facts ++ [⟨r, fid, vid, ts⟩] } := by
    unfold insertFact
    rw [if_neg]
    · intro hany
      rw [List.any_eq_true] at hany
      obtain ⟨g0, hg0, hkey⟩ := hany
      rw [vfacts, ffacts] at hg0
      simp only [Bool.and_eq_true, beq_iff_eq] at hkey
      exact hfr g0 hg0 hkey.1.1
  have hup : upsertCurrent { db2 with facts := db2.facts ++ [⟨r, fid, vid, ts⟩] }
      ⟨r, fid, vid, ts⟩ =
      { db2 with facts := db2.facts ++ [⟨r, fid, vid, ts⟩],
                 current := db2.current ++ [⟨r, fid, vid, ts⟩] } := by
    unfold upsertCurrent
    rw [if_neg]
    · intro hany
      dsimp only at hany
      rw [List.any_eq_true] at hany
      obtain ⟨c0, hc0, hkey⟩ := hany
      rw [vcur, fcur] at hc0
      simp only [Bool.and_eq_true, beq_iff_eq] at hkey
      exact hcr c0 hc0 hkey.1
  have hproc : processItem p r ts mode db ⟨name, cv⟩ =
      .ok { db2 with facts := db2.facts ++ [⟨r, fid, vid, ts⟩],
                     current := db2.current ++ [⟨r, fid, vid, ts⟩] } := by
    unfold processItem
    rw [hF]
    dsimp only
    rw [hV]
    dsimp only
    rw [hcurnone]
    simp only [Option.map_none',
      show ((none : Option Nat) == some vid) = false from rfl,
      Bool.and_false, Bool.false_eq_true, if_false]
    rw [hins]
    dsimp only
    rw [hup]
  refine ⟨fid, vid, _, hproc, ?_, ?_, ?_, ?_, ?_, ?_, ?_, ?_⟩
  · dsimp only
    rw [vfacts, ffacts]
  · dsimp only
    rw [vcur, fcur]
  · dsimp only
    rw [vtag, ftag]
  · dsimp only
    rw [vhash, fhash]
  · dsimp only
    rw [vrecs, frecs]
  · dsimp only
    rw [vmeta, fmeta]
  · exact getOrCreateField_stable hF _ (by dsimp only; exact vflds)
  · exact getOrCreateValue_stable hV _ (by dsimp only) (by dsimp only; exact vtag)
      (by dsimp only; exact vhash)

theorem ensureRecord_has (db : DB) (r : Nat) (ts : Int) :
    (ensureRecord db r ts).records.any (fun rc => rc.1 == r) = true := by
  unfold ensureRecord
  split
  · next h => exact h
  · simp

theorem ensureRecord_of_has {db : DB} {r : Nat} (ts : Int)
    (h : db.records.any (fun rc => rc.1 == r) = true) : ensureRecord db r ts = db := by
  unfold ensureRecord
  rw [if_pos h]

/-- Claim C4: in EventDriven mode an ingest item whose value_id equals that
of the existing current row for its (record, field) is skipped entirely; two
successive event ingests of the same (record, name, value) at t1 < t2 leave
the database of the first ingest untouched, with exactly one fact (at t1)
and the current row pinned to t1, while the same pair of ingests in
ObservationDriven mode appends two fact rows. -/
theorem event_mode_suppression (p : Prims) (db : DB) (r : Nat)
    (name : List Byte) (cv : CanonValueM) (t1 t2 : Int) (st1 st2 so1 so2 : DB)
    (hlt : t1 < t2)
    (htm : db.tagmap = .felixV03)
    (hn1 : name.length ≤ 256) (hn2 : p.validUtf8 name = true)
    (hcv : valueSizeOk cv = true)
    (hfr : ∀ g ∈ db.facts, g.r ≠ r) (hcr : ∀ c ∈ db.current, c.r ≠ r)
    (e1 : st1 = runIngest p db r t1 .eventDriven [⟨name, cv⟩])
    (e2 : st2 = runIngest p st1 r t2 .eventDriven [⟨name, cv⟩])
    (o1 : so1 = runIngest p db r t1 .observationDriven [⟨name, cv⟩])
    (o2 : so2 = runIngest p so1 r t2 .observationDriven [⟨name, cv⟩]) :
    st2 = st1 ∧
    (∃ fid vid, factsFor st2 r fid = [⟨r, fid, vid, t1⟩] ∧
      currentFor st2 r fid = [⟨r, fid, vid, t1⟩]) ∧
    st1.facts.length = db.facts.length + 1 ∧
    so2.facts.length = db.facts.length + 2 := by
  obtain ⟨eMeta, eTag, eHash, eFlds, eVals, eFacts, eCur⟩ := ensureRecord_frame db r t1
  have htmE : (ensureRecord db r t1).tagmap = .felixV03 := by rw [eTag, htm]
  have hfrE : ∀ g ∈ (ensureRecord db r t1).facts, g.r ≠ r := by rw [eFacts]; exact hfr
  have hcrE : ∀ c ∈ (ensureRecord db r t1).current, c.r ≠ r := by rw [eCur]; exact hcr
  -- event-driven first ingest
  obtain ⟨fid, vid, stE, hproc, hfactsE, hcurE, htagE, hhashE, hrecsE, hmetaE, hstF, hstV⟩ :=
    processItem_fresh p (ensureRecord db r t1) r t1 .eventDriven name cv htmE hn1 hn2 hcv hfrE hcrE
  have hing1 : ingestItems p db r t1 .eventDriven [⟨name, cv⟩] = .ok stE := by
    unfold ingestItems
    dsimp only
    rw [if_neg (by simp)]
    unfold ingestLoop
    rw [hproc]
    rfl
  have hrun1 : runIngest p db r t1 .eventDriven [⟨name, cv⟩] = stE := by
    unfold runIngest
    rw [hing1]
  -- the second event-driven ingest is a no-op
  have hensure2 : ensureRecord stE r t2 = stE :=
    ensureRecord_of_has t2 (by rw [hrecsE]; exact ensureRecord_has db r t1)
  have hgc : getCurrent stE r fid = some (vid, t1) := by
    unfold getCurrent
    rw [hcurE, eCur]
    rw [List.find?_append, List.find?_eq_none.mpr (fun c hc => by simp [hcr c hc])]
    simp only [Option.none_or]
    rw [List.find?_cons_of_pos _ (by simp)]
    rfl
  have hproc2 : processItem p r t2 .eventDriven stE ⟨name, cv⟩ = .ok stE := by
    unfold processItem
    rw [hstF]
    dsimp only
    rw [hstV]
    dsimp only
    rw [hgc]
    simp only [Option.map_some', beq_self_eq_true, Bool.and_self,
      show (TemporalityMode.eventDriven == TemporalityMode.eventDriven) = true from rfl,
      Bool.true_and, if_true]
  have hing2 : ingestItems p stE r t2 .eventDriven [⟨name, cv⟩] = .ok stE := by
    unfold ingestItems
    dsimp only
    rw [if_neg (by simp), hensure2]
    unfold ingestLoop
    rw [hproc2]
    rfl
  have hrun2 : runIngest p stE r t2 .eventDriven [⟨name, cv⟩] = stE := by
    unfold runIngest
    rw [hing2]
  -- observation-driven pair
  obtain ⟨fid2, vid2, stO, hprocO, hfactsO, hcurO, htagO, hhashO, hrecsO, hmetaO, hstFO, hstVO⟩ :=
    processItem_fresh p (ensureRecord db r t1) r t1 .observationDriven name cv htmE hn1 hn2 hcv hfrE hcrE
  have hingO1 : ingestItems p db r t1 .observationDriven [⟨name, cv⟩] = .ok stO := by
    unfold ingestItems
    dsimp only
    rw [if_neg (by simp)]
    unfold ingestLoop
    rw [hprocO]
    rfl
  have hrunO1 : runIngest p db r t1 .observationDriven [⟨name, cv⟩] = stO := by
    unfold runIngest
    rw [hingO1]
  have hensureO2 : ensureRecord stO r t2 = stO :=
    ensureRecord_of_has t2 (by rw [hrecsO]; exact ensureRecord_has db r t1)
  have hinsO2 : insertFact stO ⟨r, fid2, vid2, t2⟩ =
      .ok { stO with facts := stO.facts ++ [⟨r, fid2, vid2, t2⟩] } := by
    unfold insertFact
    rw [if_neg]
    intro hany
    rw [List.any_eq_true] at hany
    obtain ⟨g0, hg0, hkey⟩ := hany
    rw [hfactsO, eFacts] at hg0
    simp only [Bool.and_eq_true, beq_iff_eq] at hkey
    rcases List.mem_append.mp hg0 with hg0 | hg0
    · exact hfr g0 hg0 hkey.1.1
    · simp only [List.mem_singleton] at hg0
      subst hg0
      exact absurd hkey.2 (by simpa using ne_of_lt hlt)
  have hprocO2 : processItem p r t2 .observationDriven stO ⟨name, cv⟩ =
      .ok (upsertCurrent { stO with facts := stO.facts ++ [⟨r, fid2, vid2, t2⟩] }
        ⟨r, fid2, vid2, t2⟩) := by
    unfold processItem
    rw [hstFO]
    dsimp only
    rw [hstVO]
    dsimp only
    simp only
      [show (TemporalityMode.observationDriven == TemporalityMode.eventDriven) = false from rfl,
       Bool.false_and, Bool.false_eq_true, if_false]
    rw [hinsO2]
  have hingO2 : ingestItems p stO r t2 .observationDriven [⟨name, cv⟩] =
      .ok (upsertCurrent { stO with facts := stO.facts ++ [⟨r, fid2, vid2, t2⟩] }
        ⟨r, fid2, vid2, t2⟩) := by
    unfold ingestItems
    dsimp only
    rw [if_neg (by simp), hensureO2]
    unfold ingestLoop
    rw [hprocO2]
    unfold ingestLoop
    rfl
  have hrunO2 : runIngest p stO r t2 .observationDriven [⟨name, cv⟩] =
      upsertCurrent { stO with facts := stO.facts ++ [⟨r, fid2, vid2, t2⟩] }
        ⟨r, fid2, vid2, t2⟩ := by
    unfold runIngest
    rw [hingO2]
  subst e1 o1
  rw [hrun1] at e2 ⊢
  rw [hrunO1] at o2
  subst e2 o2
  refine ⟨hrun2, ?_, ?_, ?_⟩
  · refine ⟨fid, vid, ?_, ?_⟩
    · unfold factsFor
      rw [hrun2, hfactsE, eFacts, List.filter_append,
        List.filter_eq_nil_iff.mpr (fun g hg => by simp [hfr g hg]),
        List.filter_cons_of_pos (by simp)]
      rfl
    · unfold currentFor
      rw [hrun2, hcurE, eCur, List.filter_append,
        List.filter_eq_nil_iff.mpr (fun c hc => by simp [hcr c hc]),
        List.filter_cons_of_pos (by simp)]
      rfl
  · rw [hfactsE, eFacts]
    simp
  · rw [hrunO2]
    have := (upsertCurrent_frame { stO with facts := stO.facts ++ [⟨r, fid2, vid2, t2⟩] }
      ⟨r, fid2, vid2, t2⟩).2.2.2.2.2.2
    rw [this]
    dsimp only
    rw [hfactsO, eFacts]
    simp


/-- Witness for C4 at a concrete input. -/
theorem event_mode_suppression_witness :
    (runIngest asciiPrims (runIngest asciiPrims (initDB asciiPrims) 1 0 .eventDriven
      [⟨strBytes "a", ⟨.text, strBytes "a", []⟩⟩]) 1 1 .eventDriven [⟨strBytes "a", ⟨.text, strBytes "a", []⟩⟩]) = (runIngest asciiPrims (initDB asciiPrims) 1 0 .eventDriven
      [⟨strBytes "a", ⟨.text, strBytes "a", []⟩⟩]) ∧
    (∃ fid vid, factsFor (runIngest asciiPrims (runIngest asciiPrims (initDB asciiPrims) 1 0 .eventDriven
      [⟨strBytes "a", ⟨.text, strBytes "a", []⟩⟩]) 1 1 .eventDriven [⟨strBytes "a", ⟨.text, strBytes "a", []⟩⟩]) 1 fid = [⟨1, fid, vid, 0⟩] ∧
      currentFor (runIngest asciiPrims (runIngest asciiPrims (initDB asciiPrims) 1 0 .eventDriven
      [⟨strBytes "a", ⟨.text, strBytes "a", []⟩⟩]) 1 1 .eventDriven [⟨strBytes "a", ⟨.text, strBytes "a", []⟩⟩]) 1 fid = [⟨1, fid, vid, 0⟩]) ∧
    ((runIngest asciiPrims (initDB asciiPrims) 1 0 .eventDriven
      [⟨strBytes "a", ⟨.text, strBytes "a", []⟩⟩])).facts.length = (initDB asciiPrims).facts.length + 1 ∧
    ((runIngest asciiPrims (runIngest asciiPrims (initDB asciiPrims) 1 0 .observationDriven
      [⟨strBytes "a", ⟨.text, strBytes "a", []⟩⟩]) 1 1 .observationDriven [⟨strBytes "a", ⟨.text, strBytes "a", []⟩⟩])).facts.length = (initDB asciiPrims).facts.length + 2 :=
  event_mode_suppression asciiPrims (initDB asciiPrims) 1 (strBytes "a")
    ⟨.text, strBytes "a", []⟩ 0 1 _ _ _ _ (by decide) (by decide) (by decide) (by decide)
    (by decide) (by decide) (by decide) rfl rfl rfl rfl

/-- Claim C10: an ObservationDriven ingest call that names the same field
twice conflicts on the facts primary key (record_id, field_id, ts) at the
second item, the whole transaction rolls back, and the database is exactly
as before the call; in EventDriven mode with the same value in both items
the second item is skipped instead and the ingest succeeds with one fact. -/
theorem duplicate_field_in_one_call (p : Prims) (db : DB) (r : Nat) (ts : Int)
    (name : List Byte) (cv1 cv2 cv : CanonValueM)
    (htm : db.tagmap = .felixV03)
    (hn1 : name.length ≤ 256) (hn2 : p.validUtf8 name = true)
    (hcv1 : valueSizeOk cv1 = true) (hcv2 : valueSizeOk cv2 = true)
    (hcv : valueSizeOk cv = true)
    (hfr : ∀ g ∈ db.facts, g.r ≠ r) (hcr : ∀ c ∈ db.current, c.r ≠ r) :
    ingestItems p db r ts .observationDriven [⟨name, cv1⟩, ⟨name, cv2⟩] =
      .error .duplicate ∧
    runIngest p db r ts .observationDriven [⟨name, cv1⟩, ⟨name, cv2⟩] = db ∧
    (∃ st2, ingestItems p db r ts .eventDriven [⟨name, cv⟩, ⟨name, cv⟩] = .ok st2 ∧
      st2.facts.length = db.facts.length + 1) := by
  obtain ⟨eMeta, eTag, eHash, eFlds, eVals, eFacts, eCur⟩ := ensureRecord_frame db r ts
  have htmE : (ensureRecord db r ts).tagmap = .felixV03 := by rw [eTag, htm]
  have hfrE : ∀ g ∈ (ensureRecord db r ts).facts, g.r ≠ r := by rw [eFacts]; exact hfr
  have hcrE : ∀ c ∈ (ensureRecord db r ts).current, c.r ≠ r := by rw [eCur]; exact hcr
  have hobs : ingestItems p db r ts .observationDriven [⟨name, cv1⟩, ⟨name, cv2⟩] =
      .error .duplicate := by
    obtain ⟨fid1, vid1, stO, hprocO, hfactsO, hcurO, htagO, hhashO, hrecsO, hmetaO,
        hstFO, hstVO⟩ :=
      processItem_fresh p (ensureRecord db r ts) r ts .observationDriven name cv1
        htmE hn1 hn2 hcv1 hfrE hcrE
    obtain ⟨stX, vidX, hVX⟩ := getOrCreateValue_total p stO cv2 (by rw [htagO, htmE]) hcv2
    obtain ⟨xMeta, xTag, xHash, xFlds, xRecs, xFacts, xCur, -⟩ := getOrCreateValue_frame hVX
    have hinsdup : insertFact stX ⟨r, fid1, vidX, ts⟩ = .error .duplicate := by
      unfold insertFact
      rw [if_pos]
      rw [List.any_eq_true]
      refine ⟨⟨r, fid1, vid1, ts⟩, ?_, by simp⟩
      rw [xFacts, hfactsO]
      exact List.mem_append_right _ (by simp)
    have hproc2 : processItem p r ts .observationDriven stO ⟨name, cv2⟩ =
        .error .duplicate := by
      unfold processItem
      rw [hstFO]
      dsimp only
      rw [hVX]
      dsimp only
      simp only
        [show (TemporalityMode.observationDriven == TemporalityMode.eventDriven) = false from rfl,
         Bool.false_and, Bool.false_eq_true, if_false]
      rw [hinsdup]
    unfold ingestItems
    dsimp only
    rw [if_neg (by simp)]
    unfold ingestLoop
    rw [hprocO]
    dsimp only
    unfold ingestLoop
    rw [hproc2]
  refine ⟨hobs, ?_, ?_⟩
  · unfold runIngest
    rw [hobs]
  · -- EventDriven: the second identical item is skipped
    obtain ⟨fid, vid, stE, hprocE, hfactsE, hcurE, htagE, hhashE, hrecsE, hmetaE,
        hstFE, hstVE⟩ :=
      processItem_fresh p (ensureRecord db r ts) r ts .eventDriven name cv
        htmE hn1 hn2 hcv hfrE hcrE
    have hgc : getCurrent stE r fid = some (vid, ts) := by
      unfold getCurrent
      rw [hcurE, eCur]
      rw [List.find?_append, List.find?_eq_none.mpr (fun c hc => by simp [hcr c hc])]
      simp only [Option.none_or]
      rw [List.find?_cons_of_pos _ (by simp)]
      rfl
    have hproc2 : processItem p r ts .eventDriven stE ⟨name, cv⟩ = .ok stE := by
      unfold processItem
      rw [hstFE]
      dsimp only
      rw [hstVE]
      dsimp only
      rw [hgc]
      simp only [Option.map_some', beq_self_eq_true, Bool.and_self,
        show (TemporalityMode.eventDriven == TemporalityMode.eventDriven) = true from rfl,
        Bool.true_and, if_true]
    refine ⟨stE, ?_, ?_⟩
    · unfold ingestItems
      dsimp only
      rw [if_neg (by simp)]
      unfold ingestLoop
      rw [hprocE]
      dsimp only
      unfold ingestLoop
      rw [hproc2]
      rfl
    · rw [hfactsE, eFacts]
      simp

/-- Witness for C10 at a concrete input. -/
theorem duplicate_field_in_one_call_witness :
    ingestItems asciiPrims (initDB asciiPrims) 1 7 .observationDriven
      [⟨strBytes "a", ⟨.text, strBytes "x", []⟩⟩,
       ⟨strBytes "a", ⟨.text, strBytes "y", []⟩⟩] = .error .duplicate ∧
    runIngest asciiPrims (initDB asciiPrims) 1 7 .observationDriven
      [⟨strBytes "a", ⟨.text, strBytes "x", []⟩⟩,
       ⟨strBytes "a", ⟨.text, strBytes "y", []⟩⟩] = initDB asciiPrims ∧
    (∃ st2, ingestItems asciiPrims (initDB asciiPrims) 1 7 .eventDriven
      [⟨strBytes "a", ⟨.text, strBytes "z", []⟩⟩,
       ⟨strBytes "a", ⟨.text, strBytes "z", []⟩⟩] = .ok st2 ∧
      st2.facts.length = (initDB asciiPrims).facts.length + 1) :=
  duplicate_field_in_one_call asciiPrims (initDB asciiPrims) 1 7 (strBytes "a")
    ⟨.text, strBytes "x", []⟩ ⟨.text, strBytes "y", []⟩ ⟨.text, strBytes "z", []⟩
    (by decide) (by decide) (by decide) (by decide) (by decide) (by decide)
    (by decide) (by decide)

/-- Claim C3: rebuild_current_facts deletes every row of current_facts and
repopulates the table with, for each (record_id, field_id) group of facts,
the fact row attaining MAX(ts); on every state reachable by ingests from an
initialized database the rebuilt table holds exactly the rows of the
incrementally maintained current_facts table. -/
theorem rebuild_equals_incremental_current (p : Prims) (ops : List IngestOp)
    (c : CFactM) :
    c ∈ (rebuildCurrentFacts (runOps p (initDB p) ops)).current ↔
    c ∈ (runOps p (initDB p) ops).current := by
  obtain ⟨hPK, hCPK, hMax, hCompl⟩ := @inv_runOps p ops (initDB p) (inv_initDB p)
  unfold FactsPK at hPK
  unfold rebuildCurrentFacts
  dsimp only
  rw [List.mem_map]
  constructor
  · rintro ⟨g, hg, rfl⟩
    rw [List.mem_filter] at hg
    obtain ⟨hgmem, hgmax⟩ := hg
    rw [List.all_eq_true] at hgmax
    obtain ⟨c0, hc0mem, hc0r, hc0f⟩ := hCompl g hgmem
    obtain ⟨hc0fact, hc0max⟩ := hMax c0 hc0mem
    have h1 : g.ts ≤ c0.ts := hc0max g hgmem hc0r.symm hc0f.symm
    have h2 : c0.ts ≤ g.ts := by
      have h3 := hgmax _ hc0fact
      by_cases hk : (⟨c0.r, c0.f, c0.v, c0.ts⟩ : FactM).r = g.r ∧
          (⟨c0.r, c0.f, c0.v, c0.ts⟩ : FactM).f = g.f
      · rw [if_pos hk] at h3
        simpa using h3
      · exact absurd ⟨hc0r, hc0f⟩ hk
    have hts : c0.ts = g.ts := le_antisymm h2 h1
    by_cases heq : (⟨c0.r, c0.f, c0.v, c0.ts⟩ : FactM) = g
    · subst heq
      exact hc0mem
    · have hr := List.Pairwise.forall factsPK_symm hPK hc0fact hgmem heq
      exact absurd hts (hr hc0r hc0f)
  · intro hcmem
    obtain ⟨hcfact, hcmax⟩ := hMax c hcmem
    refine ⟨⟨c.r, c.f, c.v, c.ts⟩, ?_, rfl⟩
    rw [List.mem_filter]
    refine ⟨hcfact, ?_⟩
    rw [List.all_eq_true]
    intro g2 hg2
    split
    · next hk => exact decide_eq_true (hcmax g2 hg2 hk.1 hk.2)
    · rfl

/-- Claim C6 counterexample: the canonical form of a Null value is the word
`null`, which is four bytes, not three; the claimed three-byte form is
refuted at a concrete input. -/
theorem null_canonical_three_bytes_false :
    canonicalizeTypedValueRaw asciiPrims .null (strBytes "ignored") =
      .ok ⟨.null, strBytes "null", []⟩ ∧
    (strBytes "null").length ≠ 3 := by decide

/-- Claim C6 amended: the canonical form of a Null value is the four bytes
`null`, regardless of any supplied payload, in both the structured and the
raw-text canonicalization paths. -/
theorem null_canonical_form (p : Prims) (v : Json) (raw : List Byte) :
    canonicalizeTypedValueJson p .null v = .ok ⟨.null, strBytes "null", []⟩ ∧
    canonicalizeTypedValueRaw p .null raw = .ok ⟨.null, strBytes "null", []⟩ ∧
    (strBytes "null").length = 4 :=
  ⟨rfl, rfl, rfl⟩

/-- Claim C7 counterexample: trim_copy is built on std::isspace, which also
strips vertical tab (0x0B) and form feed (0x0C); a string with those bytes
at its ends loses them. -/
theorem trim_strips_vertical_tab :
    trimCopy [11, 97] = [97] ∧ trimCopy [97, 12] = [97] ∧
    trimCopy [11, 97] ≠ [11, 97] := by decide

/-- Claim C7 amended: trim removes exactly the six C-locale whitespace bytes
(space 0x20, tab 0x09, LF 0x0A, VT 0x0B, FF 0x0C, CR 0x0D) from both ends
and removes no other byte. -/
theorem trim_drops_c_whitespace_both_ends (s : List Byte) :
    trimCopy s = ((s.dropWhile isCSpace).reverse.dropWhile isCSpace).reverse ∧
    (∀ b : Byte, isCSpace b = true ↔
      (b = 32 ∨ b = 9 ∨ b = 10 ∨ b = 11 ∨ b = 12 ∨ b = 13)) :=
  ⟨trimCopy_eq_dropWhile s, by intro b; simp [isCSpace]; tauto⟩

/-- Claim C8 counterexample: the raw Int path delegates to std::stoll, which
accepts an optional leading plus sign; the token "+5" (no whitespace, leading
plus) canonicalizes successfully to "5" instead of failing with BadInt. -/
theorem raw_int_accepts_leading_plus :
    canonicalizeTypedValueRaw asciiPrims .int (strBytes "+5") =
      .ok ⟨.int, strBytes "5", []⟩ := by decide

theorem digit_not_space {b : Byte} (h : isDigitByte b = true) : isCSpace b = false := by
  unfold isDigitByte at h
  simp only [Bool.and_eq_true, decide_eq_true_eq] at h
  obtain ⟨h1, h2⟩ := h
  interval_cases b <;> rfl

theorem takeWhile_all {q : Byte → Bool} {l : List Byte}
    (h : ∀ b ∈ l, q b = true) : l.takeWhile q = l := by
  induction l with
  | nil => rfl
  | cons b t ih =>
    rw [List.takeWhile_cons, h b (by simp), ih (fun x hx => h x (by simp [hx]))]
    simp

/-- Claim C8 amended: a raw Int token with a leading plus sign followed by
decimal digits is accepted (std::stoll semantics) and canonicalizes to the
minimal decimal rendering of the digits. -/
theorem raw_int_plus_accepted (p : Prims) (ds : List Byte)
    (h1 : ds ≠ []) (h2 : ∀ b ∈ ds, isDigitByte b = true)
    (h3 : (digitsVal ds : Int) ≤ int64Max) :
    canonicalizeTypedValueRaw p .int (43 :: ds) =
      .ok ⟨.int, intToDecBytes (digitsVal ds), []⟩ := by
  have hnosp : ∀ b ∈ 43 :: ds, isCSpace b = false := by
    intro b hb
    rcases List.mem_cons.mp hb with rfl | hb
    · rfl
    · exact digit_not_space (h2 b hb)
  have hstoll : stoll10 (43 :: ds) = some ((digitsVal ds : Int), (43 :: ds).length) := by
    unfold stoll10
    dsimp only
    rw [show countLeadSpace (43 :: ds) = 0 from rfl]
    simp only [List.drop_zero, List.drop_succ_cons]
    rw [takeWhile_all h2]
    simp only [Bool.false_eq_true, if_false]
    rw [if_neg (by simp [h1])]
    rw [if_neg (by
      rintro (hlt | hgt)
      · have hge : (0 : Int) ≤ (digitsVal ds : Int) := Int.ofNat_nonneg _
        unfold int64Min at hlt
        omega
      · exact absurd h3 (not_le.mpr hgt))]
    simp only [List.length_cons, Option.some.injEq, Prod.mk.injEq]
    exact ⟨trivial, by omega⟩
  unfold canonicalizeTypedValueRaw
  dsimp only
  rw [trimCopy_of_no_space hnosp]
  rw [if_neg (by simp)]
  rw [hstoll]
  dsimp only
  rw [if_neg (by simp)]

/-- Witness for the amended C8 theorem. -/
theorem raw_int_plus_accepted_witness :
    ([53] : List Byte) ≠ [] ∧ (∀ b ∈ ([53] : List Byte), isDigitByte b = true) ∧
    (digitsVal [53] : Int) ≤ int64Max ∧
    canonicalizeTypedValueRaw asciiPrims .int (43 :: [53]) =
      .ok ⟨.int, intToDecBytes (digitsVal [53]), []⟩ :=
  ⟨by decide, by decide, by decide,
   raw_int_plus_accepted asciiPrims [53] (by decide) (by decide) (by decide)⟩

set_option maxRecDepth 8192 in
/-- Claim C9 counterexample: the 256-byte limit of get_or_create_field is
checked on the raw spelling before trimming and NFC normalization; a name of
257 spaces followed by "a" has a one-byte canonical form yet is rejected
with FieldTooLong. -/
theorem field_length_check_is_raw :
    getOrCreateField asciiPrims (initDB asciiPrims) (List.replicate 257 32 ++ [97]) =
      .error .fieldTooLong ∧
    (asciiPrims.nfc (trimCopy (List.replicate 257 32 ++ [97]))).length ≤ 256 := by
  decide

/-- Claim C9 amended: field interning fails with FieldTooLong exactly when
the raw (un-trimmed, un-normalized) field name exceeds 256 bytes; the length
of the canonical form is never checked. -/
theorem field_too_long_iff_raw_gt_256 (p : Prims) (db : DB) (name : List Byte) :
    getOrCreateField p db name = .error .fieldTooLong ↔ 256 < name.length := by
  unfold getOrCreateField
  constructor
  · intro h
    by_contra hlen
    rw [if_neg hlen] at h
    split at h
    · simp at h
    · dsimp only at h
      split at h <;> simp at h
  · intro h
    rw [if_pos h]

/-- Claim C5 counterexample: current_eq with a never-before-seen field name
interns the name, inserting a row into the fields table, so the query does
not leave every table unchanged. -/
theorem query_interns_fresh_field :
    (cliQueryEq asciiPrims (initDB asciiPrims) true (strBytes "X")
        (strBytes "text:a")).1.fields ≠ (initDB asciiPrims).fields ∧
    (cliQueryEq asciiPrims (initDB asciiPrims) true (strBytes "X")
        (strBytes "text:a")).2 = .ok [] := by decide

/-- Claim C5 amended: current_eq and ever_eq never change the records, facts
or current_facts tables, but they intern the queried field name and value,
appending rows to the fields and f_values tables when absent; with both
already present every table is left unchanged. -/
theorem queries_preserve_facts_records_current (p : Prims) (db : DB)
    (isCur : Bool) (fieldName typedValue : List Byte) :
    (cliQueryEq p db isCur fieldName typedValue).1.records = db.records ∧
    (cliQueryEq p db isCur fieldName typedValue).1.facts = db.facts ∧
    (cliQueryEq p db isCur fieldName typedValue).1.current = db.current ∧
    (∃ ext, (cliQueryEq p db isCur fieldName typedValue).1.fields = db.fields ++ ext) ∧
    (∃ ext, (cliQueryEq p db isCur fieldName typedValue).1.values = db.values ++ ext) := by
  obtain ⟨lf, lv, lr, lfac, lcur, lm⟩ := loadFormatDefaults_frame db
  unfold cliQueryEq
  dsimp only
  cases hI : initSchema p (loadFormatDefaults db) with
  | error e =>
    dsimp only
    exact ⟨lr, lfac, lcur, ⟨[], by simp [lf]⟩, ⟨[], by simp [lv]⟩⟩
  | ok db2 =>
    obtain ⟨iFlds, iRecs, iFacts, iCur, iVals⟩ := initSchema_frame hI
    obtain ⟨extI, hextI⟩ := iVals
    dsimp only
    cases hF : getOrCreateField p db2 fieldName with
    | error e =>
      dsimp only
      exact ⟨iRecs.trans lr, iFacts.trans lfac, iCur.trans lcur,
        ⟨[], by simp [iFlds, lf]⟩, ⟨extI, by rw [hextI, lv]⟩⟩
    | ok pr =>
      obtain ⟨db3, fid⟩ := pr
      obtain ⟨fMeta, fTag, fHash, fVals, fRecs, fFacts, fCur, fFlds⟩ :=
        getOrCreateField_frame hF
      obtain ⟨extF, hextF⟩ := fFlds
      dsimp only
      cases hP : parseCliTypeValue p typedValue with
      | error e =>
        dsimp only
        exact ⟨fRecs.trans (iRecs.trans lr), fFacts.trans (iFacts.trans lfac),
          fCur.trans (iCur.trans lcur),
          ⟨extF, by rw [hextF, iFlds, lf]⟩,
          ⟨extI, by rw [fVals, hextI, lv]⟩⟩
      | ok cv =>
        dsimp only
        cases hV : getOrCreateValue p db3 cv with
        | error e =>
          dsimp only
          exact ⟨fRecs.trans (iRecs.trans lr), fFacts.trans (iFacts.trans lfac),
            fCur.trans (iCur.trans lcur),
            ⟨extF, by rw [hextF, iFlds, lf]⟩,
            ⟨extI, by rw [fVals, hextI, lv]⟩⟩
        | ok pr2 =>
          obtain ⟨db4, vid⟩ := pr2
          obtain ⟨vMeta, vTag, vHash, vFlds, vRecs, vFacts, vCur, vVals⟩ :=
            getOrCreateValue_frame hV
          obtain ⟨extV, hextV⟩ := vVals
          dsimp only
          refine ⟨vRecs.trans (fRecs.trans (iRecs.trans lr)),
            vFacts.trans (fFacts.trans (iFacts.trans lfac)),
            vCur.trans (fCur.trans (iCur.trans lcur)),
            ⟨extF, by rw [vFlds, hextF, iFlds, lf]⟩,
            ⟨extI ++ extV, ?_⟩⟩
          rw [hextV, fVals, hextI, lv, List.append_assoc]


/-- Claim C2 (code bug): run_felix calls init_schema before every command,
which stamps the meta rows to the felix_v03 format unconditionally.  On a
database whose meta rows read legacy_v02 / legacy_no_sep, a CLI ingest of a
bytes value therefore SUCCEEDS and the hash format of the database changes
to felix_v03_sep, contradicting the claim.  Without the re-init the engine
behaves exactly as claimed: the bytes ingest fails with UnsupportedInLegacy
and a text value "a" is hashed over the two bytes 0x01 ++ "a". -/
theorem legacy_db_upgraded_by_cli_ingest :
    metaGet legacyMetaDB.meta "tag_map" = some "legacy_v02" ∧
    metaGet legacyMetaDB.meta "hash_format" = some "legacy_no_sep" ∧
    (cliIngest asciiPrims legacyMetaDB 1 1000 .observationDriven
        [⟨strBytes "X", ⟨.bytes, [], [0]⟩⟩]).2 = .ok () ∧
    metaGet (cliIngest asciiPrims legacyMetaDB 1 1000 .observationDriven
        [⟨strBytes "X", ⟨.bytes, [], [0]⟩⟩]).1.meta "hash_format" =
      some "felix_v03_sep" ∧
    (cliIngest asciiPrims legacyMetaDB 1 1000 .observationDriven
        [⟨strBytes "X", ⟨.bytes, [], [0]⟩⟩]).1.hashfmt = .felixV03Sep ∧
    (cliIngest asciiPrims legacyMetaDB 1 1000 .observationDriven
        [⟨strBytes "X", ⟨.bytes, [], [0]⟩⟩]).1.facts.length = 1 ∧
    ingestItems asciiPrims (loadFormatDefaults legacyMetaDB) 1 1000 .observationDriven
        [⟨strBytes "X", ⟨.bytes, [], [0]⟩⟩] = .error .unsupportedInLegacy ∧
    (ingestItems asciiPrims (loadFormatDefaults legacyMetaDB) 1 1000 .observationDriven
        [⟨strBytes "X", ⟨.text, strBytes "a", []⟩⟩]).map
      (fun st => st.values.map (fun vr => vr.hash)) =
      .ok [asciiPrims.sha256 (sha256Input .legacyNoSep 1 (strBytes "a"))] := by
  decide
